import Mathlib

/-!
Shallow embedding of `CollectMacrosPreprocessorCallbacks`
(src/tools/clangrefactoringbackend/source/collectmacrospreprocessorcallbacks.h).

The collector consumes a stream of preprocessing events (inclusion directives,
conditional tests, definitions, undefinitions, expansions) and maintains five
pieces of state: the symbol-entry table, the occurrence log, the included-file
list, and the confirmed / tentative used-define sets.  External services
(source-location resolution, USR generation, the preprocessor's macro lookup)
are modelled as an environment of pure functions.
-/

namespace CollectMacros

/-- Identity of a file path, as resolved by the file-path cache.
Modelled from the spec: `filepathid.h` is not among the sources; the spec
describes a file identity with a validity notion (a resolved id may be
invalid).  We follow the usual Qt Creator representation: an integer id,
valid when non-negative. -/
structure FilePathId where
  id : Int
deriving DecidableEq, Repr

/-- Validity test of a resolved file-path id (`FilePathId::isValid`). -/
def FilePathId.isValid (f : FilePathId) : Bool := decide (0 ≤ f.id)

/-- Pointer identity of a `clang::MacroInfo` object, used as the stable key of
a macro lineage. -/
abbrev MacroId := Nat

/-- Index type of rows in the symbol table (`toSymbolIndex` casts the
`MacroInfo` pointer to an integer index). -/
abbrev SymbolIndex := Nat

/-- Translation of `toSymbolIndex`: the `MacroInfo` pointer itself is the
symbol index. -/
def toSymbolIndex (m : MacroId) : SymbolIndex := m

/-- A `clang::MacroDirective`: each directive carries the macro-info object it
attaches (absent for undef directives) and an optional previous directive
(`getPrevious`), forming a backward-linked redefinition chain.  `base` is a
directive whose `getPrevious` is null, `redef` one with a predecessor. -/
inductive MacroDirective where
  | base (info : Option MacroId)
  | redef (info : Option MacroId) (prev : MacroDirective)
deriving DecidableEq, Repr

/-- Projection `MacroDirective::getMacroInfo`. -/
def MacroDirective.getMacroInfo : MacroDirective → Option MacroId
  | .base i => i
  | .redef i _ => i

/-- Projection `MacroDirective::getPrevious` (null for a `base` directive). -/
def MacroDirective.getPrevious : MacroDirective → Option MacroDirective
  | .base _ => none
  | .redef _ p => some p

/-- The do-while walk of `firstMacroInfo`: follow `getPrevious` links until
none remain, returning the earliest directive of the chain. -/
def MacroDirective.walkToFirst : MacroDirective → MacroDirective
  | .base i => .base i
  | .redef _ p => p.walkToFirst

/-- Translation of `firstMacroInfo`: given a (nullable) directive, walk the
backward chain to its earliest directive and return that directive's
macro info; null directive yields nothing. -/
def firstMacroInfo : Option MacroDirective → Option MacroId
  | none => none
  | some d => d.walkToFirst.getMacroInfo

/-- The directive chain as a list, most recent first, earliest last.  Used
only to state properties of `firstMacroInfo`. -/
def MacroDirective.chainList : MacroDirective → List MacroDirective
  | .base i => [.base i]
  | .redef i p => .redef i p :: p.chainList

/-- An opaque raw source location (a `clang::SourceLocation`); the environment
resolves it to file / line / column data. -/
abbrev SourceLocation := Nat

/-- The data of a macro-name token: its identifier text
(`getIdentifierInfo()->getName()`) and its raw location (`getLocation()`). -/
structure Token where
  name : String
  loc : SourceLocation
deriving DecidableEq, Repr

/-- The data of a `clang::MacroDefinition`: `getMacroInfo()` (present iff the
reference resolved to full macro info) and `getLocalDirective()` (the head of
the backward redefinition chain, possibly null). -/
structure MacroDefinition where
  info : Option MacroId
  localDirective : Option MacroDirective
deriving DecidableEq, Repr

/-- Projection named after `clang::MacroDefinition::getMacroInfo`. -/
def MacroDefinition.getMacroInfo (md : MacroDefinition) : Option MacroId := md.info

/-- Projection named after `clang::MacroDefinition::getLocalDirective`. -/
def MacroDefinition.getLocalDirective (md : MacroDefinition) : Option MacroDirective :=
  md.localDirective

/-- The slice of `clang::MacroInfo` consulted at finalization time by
`filterOutHeaderGuards`. -/
structure MacroPPInfo where
  usedForHeaderGuard : Bool
deriving DecidableEq, Repr

/-- Environment of external services: the source-location resolver
(`filePathId`, `lineColum`, `isFileID` of `SymbolsVisitorBase`), the USR
generator (`generateUSR`), and the preprocessor's identifier-table macro
lookup used by `filterOutHeaderGuards`. -/
structure Env where
  locIsFileID : SourceLocation → Bool
  filePathId : SourceLocation → FilePathId
  lineColumn : SourceLocation → Nat × Nat
  generateUSR : String → SourceLocation → Option String
  getMacroInfo : String → Option MacroPPInfo

/-- A used define: the macro's textual name and the location of the
observation that created the entry (`UsedDefine` of `useddefines.h`). -/
structure UsedDefine where
  defineName : String
  filePathId : FilePathId
deriving DecidableEq, Repr

/-- Lexicographic comparison of character sequences, translating the
byte-wise lexicographic `operator<` of `Utils::SmallString`. -/
def charsLt : List Char → List Char → Bool
  | [], [] => false
  | [], _ :: _ => true
  | _ :: _, [] => false
  | a :: as, b :: bs =>
    if a.toNat < b.toNat then true
    else if b.toNat < a.toNat then false
    else charsLt as bs

/-- String-level wrapper of `charsLt`. -/
def strLt (a b : String) : Bool := charsLt a.data b.data

/-- Modelled from the spec: `useddefines.h` is not among the sources.  The
spec fixes the ordering relation of `UsedDefine` as primarily by `name`
(lexicographic on the textual identifier), entries of equal name being
duplicates regardless of location.  `UsedDefine.lt` is `operator<`. -/
def UsedDefine.lt (a b : UsedDefine) : Bool := strLt a.defineName b.defineName

/-- Modelled from the spec: `operator==` of `UsedDefine` compares names only
(equal names are duplicates regardless of location). -/
def UsedDefine.sameName (a b : UsedDefine) : Bool := a.defineName == b.defineName

/-- A row of the symbol table: the externally generated USR and the macro's
display name (`SymbolEntry`). -/
structure SymbolEntry where
  usr : String
  symbolName : String
deriving DecidableEq, Repr

/-- Occurrence kinds recorded in the occurrence log (`SymbolType`). -/
inductive SymbolType where
  | macroDefinition
  | macroUndefinition
  | macroUsage
deriving DecidableEq, Repr

/-- A row of the occurrence log (`SourceLocationEntry`). -/
structure SourceLocationEntry where
  symbolId : SymbolIndex
  filePathId : FilePathId
  lineColumn : Nat × Nat
  symbolType : SymbolType
deriving DecidableEq, Repr

/-- The collector's mutable state: the symbol table (an association list keyed
by symbol index, mirroring `SymbolEntries`), the append-only occurrence log,
the included-file list, the confirmed and tentative used-define sets, and the
`m_skipInclude` flag. -/
structure CollectorState where
  symbolEntries : List (SymbolIndex × SymbolEntry)
  sourceLocationEntries : List SourceLocationEntry
  sourceFiles : List FilePathId
  usedDefines : List UsedDefine
  maybeUsedDefines : List UsedDefine
  skipInclude : Bool
deriving Repr

/-- All structures start empty at the beginning of a translation-unit pass;
`m_skipInclude` starts false. -/
def initialState : CollectorState :=
  { symbolEntries := []
    sourceLocationEntries := []
    sourceFiles := []
    usedDefines := []
    maybeUsedDefines := []
    skipInclude := false }

/-- Translation of the static `addUsedDefine(UsedDefine &&, UsedDefines &)`:
`std::lower_bound` finds the first entry not less than the candidate; the
candidate is inserted there unless an entry of equal name already sits
there. -/
def addUsedDefineSorted (ud : UsedDefine) : List UsedDefine → List UsedDefine
  | [] => [ud]
  | x :: xs =>
    if UsedDefine.lt x ud then x :: addUsedDefineSorted ud xs
    else if UsedDefine.sameName x ud then x :: xs
    else ud :: x :: xs

/-- Translation of the member `addUsedDefine(token, macroDefinition)`: build
the candidate from the token's name and resolved location; route it to the
confirmed set when `getMacroInfo()` is non-null, to the tentative set
otherwise. -/
def addUsedDefine (env : Env) (tok : Token) (md : MacroDefinition) (s : CollectorState) :
    CollectorState :=
  let usedDefine : UsedDefine := ⟨tok.name, env.filePathId tok.loc⟩
  match md.getMacroInfo with
  | some _ => { s with usedDefines := addUsedDefineSorted usedDefine s.usedDefines }
  | none => { s with maybeUsedDefines := addUsedDefineSorted usedDefine s.maybeUsedDefines }

/-- Translation of `addMacroAsSymbol`: requires non-null macro info and a
file-id token location; requires a valid resolved file-path id; then inserts a
symbol entry keyed by the macro-info identity if absent and USR generation
succeeds, and unconditionally (within the guarded branch) appends the
occurrence to the log. -/
def addMacroAsSymbol (env : Env) (tok : Token) (macroInfo : Option MacroId)
    (symbolType : SymbolType) (s : CollectorState) : CollectorState :=
  match macroInfo with
  | none => s
  | some mi =>
    if env.locIsFileID tok.loc then
      let fileId := env.filePathId tok.loc
      if fileId.isValid then
        let globalId := toSymbolIndex mi
        let entries :=
          match s.symbolEntries.lookup globalId with
          | some _ => s.symbolEntries
          | none =>
            match env.generateUSR tok.name tok.loc with
            | some usr => s.symbolEntries ++ [(globalId, ⟨usr, tok.name⟩)]
            | none => s.symbolEntries
        { s with
          symbolEntries := entries
          sourceLocationEntries := s.sourceLocationEntries ++
            [⟨globalId, fileId, env.lineColumn tok.loc, symbolType⟩] }
      else s
    else s

/-- Translation of `addSourceFile`: `std::find` scans the whole list for an
equal id; when absent (`found == end()`) the id is inserted at the end.  (The
`*found != filePathId` disjunct of the source condition is vacuous under
`std::find`, which only ever returns an equal element or `end()`.) -/
def addSourceFile (filePathId : FilePathId) (sourceFiles : List FilePathId) :
    List FilePathId :=
  if sourceFiles.contains filePathId then sourceFiles else sourceFiles ++ [filePathId]

/-- The preprocessing events delivered to the callbacks.  Inclusion events
carry the resolved file entry (null when resolution failed), already mapped
to its file-path id by the external file-path cache. -/
inductive PPEvent where
  | InclusionDirective (file : Option FilePathId)
  | FileNotFound
  | Ifndef (tok : Token) (md : MacroDefinition)
  | Ifdef (tok : Token) (md : MacroDefinition)
  | Defined (tok : Token) (md : MacroDefinition)
  | MacroDefined (tok : Token) (directive : Option MacroDirective)
  | MacroUndefined (tok : Token) (md : MacroDefinition)
  | MacroExpands (tok : Token) (md : MacroDefinition)
deriving Repr

/-- One step of the event dispatcher: the bodies of the eight callback
handlers. -/
def step (env : Env) (s : CollectorState) : PPEvent → CollectorState
  | .InclusionDirective file =>
    let s' :=
      match s.skipInclude, file with
      | false, some f => { s with sourceFiles := addSourceFile f s.sourceFiles }
      | _, _ => s
    { s' with skipInclude := false }
  | .FileNotFound => { s with skipInclude := true }
  | .Ifndef tok md =>
    addMacroAsSymbol env tok (firstMacroInfo md.getLocalDirective) .macroUsage
      (addUsedDefine env tok md s)
  | .Ifdef tok md =>
    addMacroAsSymbol env tok (firstMacroInfo md.getLocalDirective) .macroUsage
      (addUsedDefine env tok md s)
  | .Defined tok md =>
    addMacroAsSymbol env tok (firstMacroInfo md.getLocalDirective) .macroUsage
      (addUsedDefine env tok md s)
  | .MacroDefined tok directive =>
    addMacroAsSymbol env tok (firstMacroInfo directive) .macroDefinition s
  | .MacroUndefined tok md =>
    addMacroAsSymbol env tok (firstMacroInfo md.getLocalDirective) .macroUndefinition s
  | .MacroExpands tok md =>
    addMacroAsSymbol env tok (firstMacroInfo md.getLocalDirective) .macroUsage
      (addUsedDefine env tok md s)

/-- The keep-predicate of `filterOutHeaderGuards`: an entry is retained when
the preprocessor yields no macro info for its name, or yields one not flagged
as a header guard. -/
def isNotHeaderGuard (env : Env) (ud : UsedDefine) : Bool :=
  match env.getMacroInfo ud.defineName with
  | none => true
  | some info => !info.usedForHeaderGuard

/-- Translation of `filterOutHeaderGuards`: a stable partition followed by an
erase of the dropped tail, i.e. an order-preserving filter of the tentative
set.  The confirmed set is untouched. -/
def filterOutHeaderGuards (env : Env) (s : CollectorState) : CollectorState :=
  { s with maybeUsedDefines := s.maybeUsedDefines.filter (isNotHeaderGuard env) }

/-- Substring test translating `Utils::SmallString::contains`: scan every
suffix for the pattern as a prefix. -/
def charsContain (pat : List Char) : List Char → Bool
  | [] => pat.isEmpty
  | c :: cs => List.isPrefixOf pat (c :: cs) || charsContain pat cs

/-- String-level wrapper of `charsContain`. -/
def strContains (s pat : String) : Bool := charsContain pat.data s.data

/-- Translation of `filterOutExports`: an order-preserving filter of the
confirmed (merged) set, dropping entries whose name contains `EXPORT`. -/
def filterOutExports (s : CollectorState) : CollectorState :=
  { s with usedDefines :=
      s.usedDefines.filter (fun ud => !strContains ud.defineName "EXPORT") }

/-- Non-strict comparison derived from `operator<`, as `std::inplace_merge`
uses it: the element of the first range stays ahead unless the second is
strictly less. -/
def udLE (x y : UsedDefine) : Bool := !UsedDefine.lt y x

/-- The merge loop of `std::inplace_merge`, structurally recursive on a fuel
argument so that it evaluates by kernel reduction; the recursion consumes at
most one unit of fuel per emitted element, so fuel equal to the combined
length (as supplied by `mergeDefinesList`) makes the third equation
unreachable. -/
def mergeDefinesAux : Nat → List UsedDefine → List UsedDefine → List UsedDefine
  | _, [], ys => ys
  | _, x :: xs, [] => x :: xs
  | 0, xs, ys => xs ++ ys
  | fuel + 1, x :: xs, y :: ys =>
    if UsedDefine.lt y x then y :: mergeDefinesAux fuel (x :: xs) ys
    else x :: mergeDefinesAux fuel xs (y :: ys)

/-- Translation of `std::inplace_merge` over the concatenation of the two
sets: a stable merge by `operator<`; an element of the second range moves
ahead only when strictly less. -/
def mergeDefinesList (xs ys : List UsedDefine) : List UsedDefine :=
  mergeDefinesAux (xs.length + ys.length) xs ys

/-- Translation of `mergeUsedDefines`: append the tentative set to the
confirmed set and merge the two sorted ranges in place. -/
def mergeUsedDefines (s : CollectorState) : CollectorState :=
  { s with usedDefines := mergeDefinesList s.usedDefines s.maybeUsedDefines }

/-- Translation of `EndOfMainFile`: header-guard filter, then merge, then
export filter. -/
def endOfMainFile (env : Env) (s : CollectorState) : CollectorState :=
  filterOutExports (mergeUsedDefines (filterOutHeaderGuards env s))

/-- Process a whole event stream from the empty state. -/
def processEvents (env : Env) (events : List PPEvent) : CollectorState :=
  events.foldl (step env) initialState

/-- One full translation-unit pass: process the events, then run end-of-file
finalization. -/
def runPass (env : Env) (events : List PPEvent) : CollectorState :=
  endOfMainFile env (processEvents env events)

/-- Strict name order on used defines, as a proposition (the order the spec
asserts of the final sequence). -/
def udNameLT (a b : UsedDefine) : Prop := UsedDefine.lt a b = true

/-- Non-strict name order on used defines, as a proposition. -/
def udNameLE (a b : UsedDefine) : Prop := UsedDefine.lt b a = false

instance : DecidableRel udNameLT :=
  fun a b => inferInstanceAs (Decidable (UsedDefine.lt a b = true))

instance : DecidableRel udNameLE :=
  fun a b => inferInstanceAs (Decidable (UsedDefine.lt b a = false))

/-! ### Concrete sample inputs used to evaluate the model -/

/-- A sample environment: every location is a file location resolving to the
file-path id equal to the location; USR generation fails at location 1 and
succeeds elsewhere; the finalization-time macro lookup yields nothing. -/
def sampleEnv : Env :=
  { locIsFileID := fun _ => true
    filePathId := fun n => ⟨Int.ofNat n⟩
    lineColumn := fun n => (n, 1)
    generateUSR := fun name l => if l == 1 then none else some ("usr_" ++ name)
    getMacroInfo := fun _ => none }

/-- An environment whose finalization-time lookup flags `GUARD` as a header
guard, yields non-guard info for `INFO`, and nothing for other names. -/
def guardEnv : Env :=
  { sampleEnv with
    getMacroInfo := fun name =>
      if name == "GUARD" then some ⟨true⟩
      else if name == "INFO" then some ⟨false⟩ else none }

def tokA1 : Token := ⟨"A", 1⟩

def tokA2 : Token := ⟨"A", 2⟩

def tokExports : Token := ⟨"MYLIB_EXPORT", 3⟩

def tokFeature : Token := ⟨"MYLIB_FEATURE", 4⟩

/-- A single original definition directive for macro-info object 7. -/
def dirA : MacroDirective := .base (some 7)

def mdA : MacroDefinition := ⟨some 7, some dirA⟩

/-- A macro reference that resolved to no macro info at all. -/
def mdUnresolved : MacroDefinition := ⟨none, none⟩

/-- A macro reference with macro info but no local directive chain. -/
def mdNoDirective : MacroDefinition := ⟨some 7, none⟩

def mdExports : MacroDefinition := ⟨some 8, some (.base (some 8))⟩

def mdFeature : MacroDefinition := ⟨some 9, some (.base (some 9))⟩

/-- Events putting the name `A` once into the tentative set (a `defined(A)`
test before `A` resolved) and once into the confirmed set. -/
def dupNameEvents : List PPEvent := [.Defined tokA1 mdUnresolved, .Ifdef tokA2 mdA]

/-- A failed inclusion directive immediately followed by the successful
callback for the recovered file. -/
def failedInclusionEvents : List PPEvent :=
  [.FileNotFound, .InclusionDirective (some ⟨5⟩)]

/-- Two successful inclusions delivered in decreasing id order. -/
def unsortedInclusionEvents : List PPEvent :=
  [.InclusionDirective (some ⟨2⟩), .InclusionDirective (some ⟨1⟩)]

/-- A definition of `A` at location 1 (where USR generation fails) followed by
an expansion of `A` at location 2 (where it succeeds); both occurrences share
macro-info identity 7. -/
def retryEvents : List PPEvent :=
  [.MacroDefined tokA1 (some dirA), .MacroExpands tokA2 mdA]

/-- Expansions of `MYLIB_EXPORT` and `MYLIB_FEATURE`, referenced identically. -/
def exportEvents : List PPEvent :=
  [.MacroExpands tokExports mdExports, .MacroExpands tokFeature mdFeature]

/-- A state whose tentative set holds `FOO` (unknown to the lookup) and
`GUARD` (flagged as a header guard by `guardEnv`). -/
def guardState : CollectorState :=
  { initialState with maybeUsedDefines := [⟨"FOO", ⟨1⟩⟩, ⟨"GUARD", ⟨1⟩⟩] }

/-- A state whose confirmed set holds an `EXPORT`-named entry and a plain
entry. -/
def exportState : CollectorState :=
  { initialState with
    usedDefines := [⟨"MYLIB_EXPORT", ⟨3⟩⟩, ⟨"MYLIB_FEATURE", ⟨4⟩⟩] }

/-- A state whose symbol table already has an entry for identity 7. -/
def preFilledState : CollectorState :=
  { initialState with symbolEntries := [(7, ⟨"u", "A"⟩)] }

end CollectMacros

namespace CollectMacros

/-! ### Order theory of the lexicographic name comparison -/

theorem char_toNat_inj {a b : Char} (h : a.toNat = b.toNat) : a = b :=
  Char.ofNat_toNat a ▸ Char.ofNat_toNat b ▸ congrArg Char.ofNat h

theorem charsLt_irrefl (a : List Char) : charsLt a a = false := by
  induction a with
  | nil => rfl
  | cons x xs ih => simp [charsLt, ih]

theorem charsLt_asymm (a : List Char) : ∀ b, charsLt a b = true → charsLt b a = false := by
  induction a with
  | nil =>
    intro b h
    cases b with
    | nil => simp [charsLt] at h
    | cons y ys => simp [charsLt]
  | cons x xs ih =>
    intro b h
    cases b with
    | nil => simp [charsLt] at h
    | cons y ys =>
      rcases Nat.lt_trichotomy x.toNat y.toNat with h1 | h1 | h1
      · simp [charsLt, h1, Nat.lt_asymm h1]
      · simp only [charsLt, h1, lt_self_iff_false, if_false] at h ⊢
        exact ih ys h
      · simp [charsLt, h1, Nat.lt_asymm h1] at h

theorem charsLt_trans (a : List Char) :
    ∀ b c, charsLt a b = true → charsLt b c = true → charsLt a c = true := by
  induction a with
  | nil =>
    intro b c hab hbc
    cases b with
    | nil => simp [charsLt] at hab
    | cons y ys =>
      cases c with
      | nil => simp [charsLt] at hbc
      | cons z zs => simp [charsLt]
  | cons x xs ih =>
    intro b c hab hbc
    cases b with
    | nil => simp [charsLt] at hab
    | cons y ys =>
      cases c with
      | nil => simp [charsLt] at hbc
      | cons z zs =>
        rcases Nat.lt_trichotomy x.toNat y.toNat with h1 | h1 | h1 <;>
          rcases Nat.lt_trichotomy y.toNat z.toNat with h2 | h2 | h2
        · have : x.toNat < z.toNat := Nat.lt_trans h1 h2
          simp [charsLt, this]
        · have : x.toNat < z.toNat := h2 ▸ h1
          simp [charsLt, this]
        · simp only [charsLt, h2, Nat.lt_asymm h2, if_true, if_false,
            lt_self_iff_false] at hbc
          exact absurd hbc (by simp)
        · have : x.toNat < z.toNat := h1 ▸ h2
          simp [charsLt, this]
        · have h3 : x.toNat = z.toNat := h1.trans h2
          simp only [charsLt, h1, h2, lt_self_iff_false, if_false] at hab hbc
          simp only [charsLt, h3, lt_self_iff_false, if_false]
          exact ih ys zs hab hbc
        · simp only [charsLt, h2, Nat.lt_asymm h2, if_true, if_false,
            lt_self_iff_false] at hbc
          exact absurd hbc (by simp)
        · simp only [charsLt, h1, Nat.lt_asymm h1, if_true, if_false,
            lt_self_iff_false] at hab
          exact absurd hab (by simp)
        · simp only [charsLt, h1, Nat.lt_asymm h1, if_true, if_false,
            lt_self_iff_false] at hab
          exact absurd hab (by simp)
        · simp only [charsLt, h1, Nat.lt_asymm h1, if_true, if_false,
            lt_self_iff_false] at hab
          exact absurd hab (by simp)

theorem charsLt_conn (a : List Char) :
    ∀ b, charsLt a b = false → charsLt b a = false → a = b := by
  induction a with
  | nil =>
    intro b h1 h2
    cases b with
    | nil => rfl
    | cons y ys => simp [charsLt] at h1
  | cons x xs ih =>
    intro b h1 h2
    cases b with
    | nil => simp [charsLt] at h2
    | cons y ys =>
      rcases Nat.lt_trichotomy x.toNat y.toNat with h | h | h
      · simp [charsLt, h] at h1
      · simp only [charsLt, h, lt_self_iff_false, if_false] at h1 h2
        rw [char_toNat_inj h, ih ys h1 h2]
      · simp [charsLt, h] at h2

theorem strLt_asymm {a b : String} (h : strLt a b = true) : strLt b a = false :=
  charsLt_asymm a.data b.data h

theorem strLt_trans {a b c : String} (h1 : strLt a b = true) (h2 : strLt b c = true) :
    strLt a c = true :=
  charsLt_trans a.data b.data c.data h1 h2

theorem strLt_conn {a b : String} (h1 : strLt a b = false) (h2 : strLt b a = false) :
    a = b := by
  have h3 : a.data = b.data := charsLt_conn a.data b.data h1 h2
  cases a; cases b; simp_all

theorem strLt_irrefl (a : String) : strLt a a = false :=
  charsLt_irrefl a.data

end CollectMacros

namespace CollectMacros

/-! ### The sorted insert of `addUsedDefine` -/

theorem udNameLT_trans {a b c : UsedDefine} (h1 : udNameLT a b) (h2 : udNameLT b c) :
    udNameLT a c :=
  strLt_trans h1 h2

theorem mem_addUsedDefineSorted {ud y : UsedDefine} :
    ∀ {l : List UsedDefine}, y ∈ addUsedDefineSorted ud l → y = ud ∨ y ∈ l := by
  intro l
  induction l with
  | nil =>
    intro h
    simp only [addUsedDefineSorted, List.mem_singleton] at h
    exact Or.inl h
  | cons x xs ih =>
    intro h
    simp only [addUsedDefineSorted] at h
    cases h1 : UsedDefine.lt x ud with
    | true =>
      simp only [h1, if_true] at h
      rcases List.mem_cons.mp h with h2 | h2
      · exact Or.inr (h2 ▸ List.mem_cons_self x xs)
      · rcases ih h2 with h3 | h3
        · exact Or.inl h3
        · exact Or.inr (List.mem_cons_of_mem _ h3)
    | false =>
      simp only [h1, if_false] at h
      cases h2 : UsedDefine.sameName x ud with
      | true =>
        simp only [h2, if_true] at h
        exact Or.inr h
      | false =>
        simp only [h2, if_false] at h
        rcases List.mem_cons.mp h with h3 | h3
        · exact Or.inl h3
        · exact Or.inr h3

theorem pairwise_addUsedDefineSorted {ud : UsedDefine} :
    ∀ {l : List UsedDefine}, l.Pairwise udNameLT →
      (addUsedDefineSorted ud l).Pairwise udNameLT := by
  intro l
  induction l with
  | nil => intro _; simp [addUsedDefineSorted]
  | cons x xs ih =>
    intro h
    rcases List.pairwise_cons.mp h with ⟨hx, hxs⟩
    simp only [addUsedDefineSorted]
    cases h1 : UsedDefine.lt x ud with
    | true =>
      simp only [h1, if_true]
      refine List.pairwise_cons.mpr ⟨?_, ih hxs⟩
      intro y hy
      rcases mem_addUsedDefineSorted hy with rfl | hy'
      · exact h1
      · exact hx y hy'
    | false =>
      rw [if_neg Bool.false_ne_true]
      cases h2 : UsedDefine.sameName x ud with
      | true =>
        rw [if_pos rfl]
        exact h
      | false =>
        rw [if_neg Bool.false_ne_true]
        have hne : x.defineName ≠ ud.defineName := by
          intro heq
          simp [UsedDefine.sameName, heq] at h2
        have hlt : udNameLT ud x := by
          cases h3 : strLt ud.defineName x.defineName with
          | true => exact h3
          | false => exact absurd (strLt_conn h1 h3) hne
        refine List.pairwise_cons.mpr ⟨?_, h⟩
        intro y hy
        rcases List.mem_cons.mp hy with rfl | hy'
        · exact hlt
        · exact udNameLT_trans hlt (hx y hy')

end CollectMacros

namespace CollectMacros

/-! ### Which handler touches which field -/

theorem addMacroAsSymbol_usedDefines (env : Env) (tok : Token) (mi : Option MacroId)
    (ty : SymbolType) (s : CollectorState) :
    (addMacroAsSymbol env tok mi ty s).usedDefines = s.usedDefines := by
  cases mi with
  | none => rfl
  | some m =>
    simp only [addMacroAsSymbol]
    split
    · split
      · rfl
      · rfl
    · rfl

theorem addMacroAsSymbol_maybeUsedDefines (env : Env) (tok : Token) (mi : Option MacroId)
    (ty : SymbolType) (s : CollectorState) :
    (addMacroAsSymbol env tok mi ty s).maybeUsedDefines = s.maybeUsedDefines := by
  cases mi with
  | none => rfl
  | some m =>
    simp only [addMacroAsSymbol]
    split
    · split
      · rfl
      · rfl
    · rfl

theorem addMacroAsSymbol_sourceFiles (env : Env) (tok : Token) (mi : Option MacroId)
    (ty : SymbolType) (s : CollectorState) :
    (addMacroAsSymbol env tok mi ty s).sourceFiles = s.sourceFiles := by
  cases mi with
  | none => rfl
  | some m =>
    simp only [addMacroAsSymbol]
    split
    · split
      · rfl
      · rfl
    · rfl

theorem addMacroAsSymbol_skipInclude (env : Env) (tok : Token) (mi : Option MacroId)
    (ty : SymbolType) (s : CollectorState) :
    (addMacroAsSymbol env tok mi ty s).skipInclude = s.skipInclude := by
  cases mi with
  | none => rfl
  | some m =>
    simp only [addMacroAsSymbol]
    split
    · split
      · rfl
      · rfl
    · rfl

theorem addUsedDefine_symbolEntries (env : Env) (tok : Token) (md : MacroDefinition)
    (s : CollectorState) :
    (addUsedDefine env tok md s).symbolEntries = s.symbolEntries := by
  simp only [addUsedDefine]
  cases md.getMacroInfo <;> rfl

theorem addUsedDefine_sourceLocationEntries (env : Env) (tok : Token) (md : MacroDefinition)
    (s : CollectorState) :
    (addUsedDefine env tok md s).sourceLocationEntries = s.sourceLocationEntries := by
  simp only [addUsedDefine]
  cases md.getMacroInfo <;> rfl

theorem addUsedDefine_sourceFiles (env : Env) (tok : Token) (md : MacroDefinition)
    (s : CollectorState) :
    (addUsedDefine env tok md s).sourceFiles = s.sourceFiles := by
  simp only [addUsedDefine]
  cases md.getMacroInfo <;> rfl

theorem step_sourceFiles_of_macro_event (env : Env) (s : CollectorState) :
    ∀ e : PPEvent, (∀ f, e ≠ .InclusionDirective f) → (step env s e).sourceFiles = s.sourceFiles := by
  intro e hne
  cases e with
  | InclusionDirective f => exact absurd rfl (hne f)
  | FileNotFound => rfl
  | Ifndef tok md =>
    simp only [step]
    rw [addMacroAsSymbol_sourceFiles, addUsedDefine_sourceFiles]
  | Ifdef tok md =>
    simp only [step]
    rw [addMacroAsSymbol_sourceFiles, addUsedDefine_sourceFiles]
  | Defined tok md =>
    simp only [step]
    rw [addMacroAsSymbol_sourceFiles, addUsedDefine_sourceFiles]
  | MacroDefined tok d =>
    simp only [step]
    rw [addMacroAsSymbol_sourceFiles]
  | MacroUndefined tok md =>
    simp only [step]
    rw [addMacroAsSymbol_sourceFiles]
  | MacroExpands tok md =>
    simp only [step]
    rw [addMacroAsSymbol_sourceFiles, addUsedDefine_sourceFiles]

/-! ### The used-define sets stay strictly sorted during collection -/

theorem addUsedDefine_sorted (env : Env) (tok : Token) (md : MacroDefinition)
    (s : CollectorState) (h1 : s.usedDefines.Pairwise udNameLT)
    (h2 : s.maybeUsedDefines.Pairwise udNameLT) :
    (addUsedDefine env tok md s).usedDefines.Pairwise udNameLT ∧
      (addUsedDefine env tok md s).maybeUsedDefines.Pairwise udNameLT := by
  simp only [addUsedDefine]
  cases md.getMacroInfo with
  | none => exact ⟨h1, pairwise_addUsedDefineSorted h2⟩
  | some m => exact ⟨pairwise_addUsedDefineSorted h1, h2⟩

theorem step_sorted (env : Env) (s : CollectorState) (e : PPEvent)
    (h1 : s.usedDefines.Pairwise udNameLT) (h2 : s.maybeUsedDefines.Pairwise udNameLT) :
    (step env s e).usedDefines.Pairwise udNameLT ∧
      (step env s e).maybeUsedDefines.Pairwise udNameLT := by
  cases e with
  | InclusionDirective f =>
    cases hsk : s.skipInclude <;> cases f <;> simp [step, hsk] <;> exact ⟨h1, h2⟩
  | FileNotFound => exact ⟨h1, h2⟩
  | Ifndef tok md =>
    simp only [step, addMacroAsSymbol_usedDefines, addMacroAsSymbol_maybeUsedDefines]
    exact addUsedDefine_sorted env tok md s h1 h2
  | Ifdef tok md =>
    simp only [step, addMacroAsSymbol_usedDefines, addMacroAsSymbol_maybeUsedDefines]
    exact addUsedDefine_sorted env tok md s h1 h2
  | Defined tok md =>
    simp only [step, addMacroAsSymbol_usedDefines, addMacroAsSymbol_maybeUsedDefines]
    exact addUsedDefine_sorted env tok md s h1 h2
  | MacroDefined tok d =>
    simp only [step, addMacroAsSymbol_usedDefines, addMacroAsSymbol_maybeUsedDefines]
    exact ⟨h1, h2⟩
  | MacroUndefined tok md =>
    simp only [step, addMacroAsSymbol_usedDefines, addMacroAsSymbol_maybeUsedDefines]
    exact ⟨h1, h2⟩
  | MacroExpands tok md =>
    simp only [step, addMacroAsSymbol_usedDefines, addMacroAsSymbol_maybeUsedDefines]
    exact addUsedDefine_sorted env tok md s h1 h2

theorem foldl_step_sorted (env : Env) :
    ∀ (events : List PPEvent) (s : CollectorState),
      s.usedDefines.Pairwise udNameLT → s.maybeUsedDefines.Pairwise udNameLT →
      (events.foldl (step env) s).usedDefines.Pairwise udNameLT ∧
        (events.foldl (step env) s).maybeUsedDefines.Pairwise udNameLT := by
  intro events
  induction events with
  | nil => intro s h1 h2; exact ⟨h1, h2⟩
  | cons e es ih =>
    intro s h1 h2
    rcases step_sorted env s e h1 h2 with ⟨h1', h2'⟩
    exact ih (step env s e) h1' h2'

theorem processEvents_sorted (env : Env) (events : List PPEvent) :
    (processEvents env events).usedDefines.Pairwise udNameLT ∧
      (processEvents env events).maybeUsedDefines.Pairwise udNameLT :=
  foldl_step_sorted env events initialState (List.Pairwise.nil) (List.Pairwise.nil)

end CollectMacros

namespace CollectMacros

/-! ### The in-place merge -/

theorem mergeDefinesAux_eq_merge :
    ∀ (fuel : Nat) (xs ys : List UsedDefine), xs.length + ys.length ≤ fuel →
      mergeDefinesAux fuel xs ys = xs.merge ys udLE := by
  intro fuel
  induction fuel with
  | zero =>
    intro xs ys h
    cases xs with
    | nil => simp [mergeDefinesAux, List.nil_merge]
    | cons x xs =>
      cases ys with
      | nil => simp [mergeDefinesAux, List.merge]
      | cons y ys => simp at h
  | succ fuel ih =>
    intro xs ys h
    cases xs with
    | nil => simp [mergeDefinesAux, List.nil_merge]
    | cons x xs =>
      cases ys with
      | nil => simp [mergeDefinesAux, List.merge]
      | cons y ys =>
        rw [List.cons_merge_cons]
        simp only [mergeDefinesAux]
        have hlen1 : (x :: xs).length + ys.length ≤ fuel := by
          simp only [List.length_cons] at h ⊢
          omega
        have hlen2 : xs.length + (y :: ys).length ≤ fuel := by
          simp only [List.length_cons] at h ⊢
          omega
        cases hlt : UsedDefine.lt y x with
        | true =>
          have hle : udLE x y = false := by simp [udLE, hlt]
          rw [if_pos rfl, hle, if_neg Bool.false_ne_true, ih (x :: xs) ys hlen1]
        | false =>
          have hle : udLE x y = true := by simp [udLE, hlt]
          rw [if_neg Bool.false_ne_true, hle, if_pos rfl, ih xs (y :: ys) hlen2]

theorem mergeDefinesList_eq_merge (xs ys : List UsedDefine) :
    mergeDefinesList xs ys = xs.merge ys udLE :=
  mergeDefinesAux_eq_merge (xs.length + ys.length) xs ys le_rfl

theorem udLE_trans : ∀ a b c : UsedDefine, udLE a b = true → udLE b c = true →
    udLE a c = true := by
  intro a b c hab hbc
  simp only [udLE, Bool.not_eq_true'] at hab hbc ⊢
  cases hca : UsedDefine.lt c a with
  | false => rfl
  | true =>
    exfalso
    cases hab' : strLt a.defineName b.defineName with
    | true =>
      have hcb : strLt c.defineName b.defineName = true := strLt_trans hca hab'
      rw [show UsedDefine.lt c b = strLt c.defineName b.defineName from rfl, hcb] at hbc
      exact Bool.noConfusion hbc
    | false =>
      have heq : a.defineName = b.defineName := strLt_conn hab' hab
      have hca' : strLt c.defineName a.defineName = true := hca
      rw [heq] at hca'
      rw [show UsedDefine.lt c b = strLt c.defineName b.defineName from rfl, hca'] at hbc
      exact Bool.noConfusion hbc

theorem udLE_total : ∀ a b : UsedDefine, (udLE a b || udLE b a) = true := by
  intro a b
  simp only [udLE, Bool.not_eq_true', Bool.or_eq_true]
  cases hba : UsedDefine.lt b a with
  | false => exact Or.inl rfl
  | true => exact Or.inr (strLt_asymm hba)

theorem udNameLT_le {a b : UsedDefine} (h : udNameLT a b) : udLE a b = true := by
  simp only [udLE, Bool.not_eq_true']
  exact strLt_asymm h

theorem pairwise_udNameLE_mergeDefinesList {xs ys : List UsedDefine}
    (hx : xs.Pairwise udNameLT) (hy : ys.Pairwise udNameLT) :
    (mergeDefinesList xs ys).Pairwise udNameLE := by
  rw [mergeDefinesList_eq_merge]
  have hx' : xs.Pairwise (fun a b => udLE a b = true) := hx.imp udNameLT_le
  have hy' : ys.Pairwise (fun a b => udLE a b = true) := hy.imp udNameLT_le
  have := @List.sorted_merge UsedDefine udLE udLE_trans udLE_total xs ys hx' hy'
  refine this.imp ?_
  intro a b hab
  simp only [udLE, Bool.not_eq_true'] at hab
  exact hab

theorem countP_mergeDefinesList (p : UsedDefine → Bool) (xs ys : List UsedDefine) :
    (mergeDefinesList xs ys).countP p = xs.countP p + ys.countP p := by
  rw [mergeDefinesList_eq_merge]
  rw [(List.merge_perm_append udLE).countP_eq p]
  exact List.countP_append p xs ys

theorem countP_name_le_one {l : List UsedDefine} (n : String)
    (h : l.Pairwise udNameLT) : l.countP (fun ud => ud.defineName == n) ≤ 1 := by
  induction l with
  | nil => simp
  | cons x xs ih =>
    rcases List.pairwise_cons.mp h with ⟨hx, hxs⟩
    rw [List.countP_cons]
    cases hp : (x.defineName == n) with
    | false =>
      rw [if_neg Bool.false_ne_true]
      have := ih hxs
      omega
    | true =>
      rw [if_pos rfl]
      have hxn : x.defineName = n := beq_iff_eq.mp hp
      have hz : xs.countP (fun ud => ud.defineName == n) = 0 := by
        rw [List.countP_eq_zero]
        intro a ha hpa
        have han : a.defineName = n := beq_iff_eq.mp hpa
        have := hx a ha
        rw [show udNameLT x a = (strLt x.defineName a.defineName = true) from rfl,
          hxn, han, strLt_irrefl] at this
        exact Bool.false_ne_true this
      omega

end CollectMacros

namespace CollectMacros

/-! ### Association-list facts about the symbol table -/

theorem lookup_none_not_mem_keys {k : SymbolIndex} :
    ∀ {l : List (SymbolIndex × SymbolEntry)}, List.lookup k l = none →
      k ∉ l.map Prod.fst := by
  intro l
  induction l with
  | nil => intro _ h; simp at h
  | cons p ps ih =>
    intro h hmem
    rw [List.lookup_cons] at h
    cases hk : (k == p.fst) with
    | true =>
      rw [hk] at h
      exact Option.noConfusion h
    | false =>
      rw [hk] at h
      rcases List.mem_cons.mp hmem with h1 | h1
      · rw [h1] at hk
        simp at hk
      · exact ih h h1

theorem lookup_append_some {k : SymbolIndex} {v : SymbolEntry}
    {l l' : List (SymbolIndex × SymbolEntry)} (h : List.lookup k l = some v) :
    List.lookup k (l ++ l') = some v := by
  induction l with
  | nil => simp at h
  | cons p ps ih =>
    rw [List.cons_append, List.lookup_cons]
    rw [List.lookup_cons] at h
    cases hk : (k == p.fst) with
    | true =>
      rw [hk] at h
      exact h
    | false =>
      rw [hk] at h
      exact ih h

theorem lookup_append_singleton_self {k : SymbolIndex} {v : SymbolEntry}
    {l : List (SymbolIndex × SymbolEntry)} (h : List.lookup k l = none) :
    List.lookup k (l ++ [(k, v)]) = some v := by
  induction l with
  | nil => simp
  | cons p ps ih =>
    rw [List.cons_append, List.lookup_cons]
    rw [List.lookup_cons] at h
    cases hk : (k == p.fst) with
    | true =>
      rw [hk] at h
      exact Option.noConfusion h
    | false =>
      rw [hk] at h
      exact ih h

/-! ### How `addMacroAsSymbol` behaves in each of its guard regimes -/

theorem addMacroAsSymbol_none (env : Env) (tok : Token) (ty : SymbolType)
    (s : CollectorState) : addMacroAsSymbol env tok none ty s = s := rfl

theorem addMacroAsSymbol_not_fileID (env : Env) (tok : Token) (mi : Option MacroId)
    (ty : SymbolType) (s : CollectorState) (h : env.locIsFileID tok.loc = false) :
    addMacroAsSymbol env tok mi ty s = s := by
  cases mi with
  | none => rfl
  | some m =>
    simp only [addMacroAsSymbol, h]
    rw [if_neg Bool.false_ne_true]

theorem addMacroAsSymbol_invalid_file (env : Env) (tok : Token) (mi : Option MacroId)
    (ty : SymbolType) (s : CollectorState)
    (h : (env.filePathId tok.loc).isValid = false) :
    addMacroAsSymbol env tok mi ty s = s := by
  cases mi with
  | none => rfl
  | some m =>
    simp only [addMacroAsSymbol, h]
    cases hf : env.locIsFileID tok.loc with
    | false => rw [if_neg Bool.false_ne_true]
    | true =>
      rw [if_pos rfl, if_neg Bool.false_ne_true]

theorem addMacroAsSymbol_log_append (env : Env) (tok : Token) (gid : MacroId)
    (ty : SymbolType) (s : CollectorState) (hfile : env.locIsFileID tok.loc = true)
    (hvalid : (env.filePathId tok.loc).isValid = true) :
    (addMacroAsSymbol env tok (some gid) ty s).sourceLocationEntries =
      s.sourceLocationEntries ++
        [⟨toSymbolIndex gid, env.filePathId tok.loc, env.lineColumn tok.loc, ty⟩] := by
  simp [addMacroAsSymbol, hfile, hvalid]

theorem addMacroAsSymbol_lookup (env : Env) (tok : Token) (gid : MacroId)
    (ty : SymbolType) (s : CollectorState) (hfile : env.locIsFileID tok.loc = true)
    (hvalid : (env.filePathId tok.loc).isValid = true) :
    List.lookup (toSymbolIndex gid) (addMacroAsSymbol env tok (some gid) ty s).symbolEntries =
      match List.lookup (toSymbolIndex gid) s.symbolEntries with
      | some e => some e
      | none => (env.generateUSR tok.name tok.loc).map (fun usr => ⟨usr, tok.name⟩) := by
  simp only [addMacroAsSymbol, hfile, hvalid, if_true]
  cases hl : List.lookup (toSymbolIndex gid) s.symbolEntries with
  | some e => simp [hl]
  | none =>
    cases hg : env.generateUSR tok.name tok.loc with
    | some usr => simp [hl, hg, lookup_append_singleton_self hl]
    | none => simp [hl, hg]

theorem addMacroAsSymbol_lookup_mono (env : Env) (tok : Token) (mi : Option MacroId)
    (ty : SymbolType) (s : CollectorState) (gid : SymbolIndex) (v : SymbolEntry)
    (h : List.lookup gid s.symbolEntries = some v) :
    List.lookup gid (addMacroAsSymbol env tok mi ty s).symbolEntries = some v := by
  cases mi with
  | none => exact h
  | some m =>
    simp only [addMacroAsSymbol]
    split
    · split
      · cases hl : List.lookup (toSymbolIndex m) s.symbolEntries with
        | some e => simp only [hl]; exact h
        | none =>
          cases hg : env.generateUSR tok.name tok.loc with
          | some usr => simp only [hl, hg]; exact lookup_append_some h
          | none => simp only [hl, hg]; exact h
      · exact h
    · exact h

theorem addMacroAsSymbol_keys_nodup (env : Env) (tok : Token) (mi : Option MacroId)
    (ty : SymbolType) (s : CollectorState)
    (h : (s.symbolEntries.map Prod.fst).Nodup) :
    ((addMacroAsSymbol env tok mi ty s).symbolEntries.map Prod.fst).Nodup := by
  cases mi with
  | none => exact h
  | some m =>
    simp only [addMacroAsSymbol]
    split
    · split
      · cases hl : List.lookup (toSymbolIndex m) s.symbolEntries with
        | some e => simp only [hl]; exact h
        | none =>
          cases hg : env.generateUSR tok.name tok.loc with
          | some usr =>
            simp only [hl, hg, List.map_append, List.map_cons, List.map_nil]
            rw [List.nodup_append]
            refine ⟨h, List.nodup_singleton _, ?_⟩
            intro a ha hb
            simp only [List.mem_singleton] at hb
            subst hb
            exact lookup_none_not_mem_keys hl ha
          | none => simp only [hl, hg]; exact h
      · exact h
    · exact h

end CollectMacros

namespace CollectMacros

/-! ### Step-level invariants of the symbol table -/

theorem addUsedDefine_symbolEntries_eq (env : Env) (tok : Token) (md : MacroDefinition)
    (s : CollectorState) :
    (addUsedDefine env tok md s).symbolEntries = s.symbolEntries := by
  simp only [addUsedDefine]
  cases md.getMacroInfo <;> rfl

theorem step_lookup_mono (env : Env) (s : CollectorState) (e : PPEvent)
    (gid : SymbolIndex) (v : SymbolEntry)
    (h : List.lookup gid s.symbolEntries = some v) :
    List.lookup gid (step env s e).symbolEntries = some v := by
  cases e with
  | InclusionDirective f =>
    cases hsk : s.skipInclude <;> cases f <;> simp [step, hsk] <;> exact h
  | FileNotFound => exact h
  | Ifndef tok md =>
    simp only [step]
    exact addMacroAsSymbol_lookup_mono env tok _ _ _ gid v
      ((addUsedDefine_symbolEntries env tok md s).symm ▸ h)
  | Ifdef tok md =>
    simp only [step]
    exact addMacroAsSymbol_lookup_mono env tok _ _ _ gid v
      ((addUsedDefine_symbolEntries env tok md s).symm ▸ h)
  | Defined tok md =>
    simp only [step]
    exact addMacroAsSymbol_lookup_mono env tok _ _ _ gid v
      ((addUsedDefine_symbolEntries env tok md s).symm ▸ h)
  | MacroDefined tok d =>
    simp only [step]
    exact addMacroAsSymbol_lookup_mono env tok _ _ _ gid v h
  | MacroUndefined tok md =>
    simp only [step]
    exact addMacroAsSymbol_lookup_mono env tok _ _ _ gid v h
  | MacroExpands tok md =>
    simp only [step]
    exact addMacroAsSymbol_lookup_mono env tok _ _ _ gid v
      ((addUsedDefine_symbolEntries env tok md s).symm ▸ h)

theorem step_keys_nodup (env : Env) (s : CollectorState) (e : PPEvent)
    (h : (s.symbolEntries.map Prod.fst).Nodup) :
    ((step env s e).symbolEntries.map Prod.fst).Nodup := by
  cases e with
  | InclusionDirective f =>
    cases hsk : s.skipInclude <;> cases f <;> simp [step, hsk] <;> exact h
  | FileNotFound => exact h
  | Ifndef tok md =>
    simp only [step]
    exact addMacroAsSymbol_keys_nodup env tok _ _ _
      ((addUsedDefine_symbolEntries env tok md s).symm ▸ h)
  | Ifdef tok md =>
    simp only [step]
    exact addMacroAsSymbol_keys_nodup env tok _ _ _
      ((addUsedDefine_symbolEntries env tok md s).symm ▸ h)
  | Defined tok md =>
    simp only [step]
    exact addMacroAsSymbol_keys_nodup env tok _ _ _
      ((addUsedDefine_symbolEntries env tok md s).symm ▸ h)
  | MacroDefined tok d =>
    simp only [step]
    exact addMacroAsSymbol_keys_nodup env tok _ _ _ h
  | MacroUndefined tok md =>
    simp only [step]
    exact addMacroAsSymbol_keys_nodup env tok _ _ _ h
  | MacroExpands tok md =>
    simp only [step]
    exact addMacroAsSymbol_keys_nodup env tok _ _ _
      ((addUsedDefine_symbolEntries env tok md s).symm ▸ h)

theorem foldl_step_keys_nodup (env : Env) :
    ∀ (events : List PPEvent) (s : CollectorState),
      (s.symbolEntries.map Prod.fst).Nodup →
      (((events.foldl (step env) s).symbolEntries).map Prod.fst).Nodup := by
  intro events
  induction events with
  | nil => intro s h; exact h
  | cons e es ih => intro s h; exact ih (step env s e) (step_keys_nodup env s e h)

/-! ### Step-level invariants of the included-file list -/

theorem addSourceFile_nodup (f : FilePathId) (l : List FilePathId) (h : l.Nodup) :
    (addSourceFile f l).Nodup := by
  simp only [addSourceFile]
  split
  · exact h
  · next hc =>
    have hf : f ∉ l := by simpa using hc
    rw [List.nodup_append]
    refine ⟨h, List.nodup_singleton f, ?_⟩
    intro a ha hb
    rw [List.mem_singleton] at hb
    subst hb
    exact hf ha

theorem step_sourceFiles_nodup (env : Env) (s : CollectorState) (e : PPEvent)
    (h : s.sourceFiles.Nodup) : (step env s e).sourceFiles.Nodup := by
  cases e with
  | InclusionDirective f =>
    cases hsk : s.skipInclude <;> cases f <;> simp [step, hsk] <;>
      first
        | exact h
        | exact addSourceFile_nodup _ _ h
  | FileNotFound => exact h
  | Ifndef tok md =>
    rw [step_sourceFiles_of_macro_event env s _ (by intro f h'; exact PPEvent.noConfusion h')]
    exact h
  | Ifdef tok md =>
    rw [step_sourceFiles_of_macro_event env s _ (by intro f h'; exact PPEvent.noConfusion h')]
    exact h
  | Defined tok md =>
    rw [step_sourceFiles_of_macro_event env s _ (by intro f h'; exact PPEvent.noConfusion h')]
    exact h
  | MacroDefined tok d =>
    rw [step_sourceFiles_of_macro_event env s _ (by intro f h'; exact PPEvent.noConfusion h')]
    exact h
  | MacroUndefined tok md =>
    rw [step_sourceFiles_of_macro_event env s _ (by intro f h'; exact PPEvent.noConfusion h')]
    exact h
  | MacroExpands tok md =>
    rw [step_sourceFiles_of_macro_event env s _ (by intro f h'; exact PPEvent.noConfusion h')]
    exact h

theorem foldl_step_sourceFiles_nodup (env : Env) :
    ∀ (events : List PPEvent) (s : CollectorState), s.sourceFiles.Nodup →
      ((events.foldl (step env) s).sourceFiles).Nodup := by
  intro events
  induction events with
  | nil => intro s h; exact h
  | cons e es ih => intro s h; exact ih (step env s e) (step_sourceFiles_nodup env s e h)

/-! ### Finalization leaves everything but the used-define sets alone -/

theorem endOfMainFile_symbolEntries (env : Env) (s : CollectorState) :
    (endOfMainFile env s).symbolEntries = s.symbolEntries := rfl

theorem endOfMainFile_sourceLocationEntries (env : Env) (s : CollectorState) :
    (endOfMainFile env s).sourceLocationEntries = s.sourceLocationEntries := rfl

theorem endOfMainFile_sourceFiles (env : Env) (s : CollectorState) :
    (endOfMainFile env s).sourceFiles = s.sourceFiles := rfl

theorem endOfMainFile_usedDefines (env : Env) (s : CollectorState) :
    (endOfMainFile env s).usedDefines =
      (mergeDefinesList s.usedDefines
          (s.maybeUsedDefines.filter (isNotHeaderGuard env))).filter
        (fun ud => !strContains ud.defineName "EXPORT") := rfl

end CollectMacros

namespace CollectMacros

/-! ### Claim theorems -/

theorem chainList_getLast_eq_walkToFirst (d : MacroDirective) :
    d.chainList.getLast? = some d.walkToFirst := by
  induction d with
  | base i => rfl
  | redef i p ih =>
    cases hc : p.chainList with
    | nil =>
      exfalso
      cases p <;> simp [MacroDirective.chainList] at hc
    | cons q rest =>
      rw [hc] at ih
      show (MacroDirective.redef i p :: p.chainList).getLast? = some p.walkToFirst
      rw [hc, List.getLast?_cons_cons]
      exact ih

/-- C6: `firstMacroInfo` yields nothing for a null directive; for a non-null
directive it yields the macro info attached to the earliest directive of the
backward chain (the last element of the chain list); and the result is
unchanged by stacking further redefinitions on top, so every definition,
usage, and undefinition occurrence of one logical macro is keyed by the same
identity. -/
theorem c6_firstMacroInfo_earliest :
    firstMacroInfo none = none ∧
    (∀ d : MacroDirective,
      (d.chainList.getLast?).map MacroDirective.getMacroInfo =
        some (firstMacroInfo (some d))) ∧
    (∀ (i : Option MacroId) (d : MacroDirective),
      firstMacroInfo (some (.redef i d)) = firstMacroInfo (some d)) := by
  refine ⟨rfl, ?_, ?_⟩
  · intro d
    rw [chainList_getLast_eq_walkToFirst]
    rfl
  · intro i d
    rfl

/-- C5: the header-guard filter keeps exactly those tentative entries whose
name does not resolve to macro info flagged as a header guard — a name with
no macro info from the lookup is kept — and the confirmed set is untouched by
this filter. -/
theorem c5_headerGuardFilter_semantics (env : Env) (s : CollectorState)
    (ud : UsedDefine) :
    (ud ∈ (filterOutHeaderGuards env s).maybeUsedDefines ↔
      ud ∈ s.maybeUsedDefines ∧
        ¬ ∃ info, env.getMacroInfo ud.defineName = some info ∧
            info.usedForHeaderGuard = true) ∧
    (filterOutHeaderGuards env s).usedDefines = s.usedDefines := by
  constructor
  · have hiff : isNotHeaderGuard env ud = true ↔
        ¬ ∃ info, env.getMacroInfo ud.defineName = some info ∧
            info.usedForHeaderGuard = true := by
      simp only [isNotHeaderGuard]
      cases hg : env.getMacroInfo ud.defineName with
      | none => simp
      | some info => simp [Bool.not_eq_true']
    have hfil : (filterOutHeaderGuards env s).maybeUsedDefines =
        s.maybeUsedDefines.filter (isNotHeaderGuard env) := rfl
    rw [hfil, List.mem_filter]
    exact and_congr_right fun _ => hiff
  · rfl

theorem c5_witness :
    (⟨"FOO", ⟨1⟩⟩ : UsedDefine) ∈
        (filterOutHeaderGuards guardEnv guardState).maybeUsedDefines ∧
      (⟨"GUARD", ⟨1⟩⟩ : UsedDefine) ∉
        (filterOutHeaderGuards guardEnv guardState).maybeUsedDefines := by
  constructor
  · refine (c5_headerGuardFilter_semantics guardEnv guardState ⟨"FOO", ⟨1⟩⟩).1.mpr
      ⟨by decide, ?_⟩
    rintro ⟨info, hinfo, hguard⟩
    exact Option.noConfusion hinfo
  · intro hmem
    rcases (c5_headerGuardFilter_semantics guardEnv guardState
      ⟨"GUARD", ⟨1⟩⟩).1.mp hmem with ⟨_, hno⟩
    exact hno ⟨⟨true⟩, rfl, rfl⟩

/-- C2 (amended): a failed inclusion directive suppresses the immediately
following successful inclusion callback, so the failed-then-recovered pair
contributes zero entries to the included-file set, not one; the suppression
flag is consumed, so a subsequent independent inclusion is recorded
normally. -/
theorem c2_failed_inclusion_suppresses_recovery (env : Env) (s : CollectorState)
    (f g : FilePathId) :
    (step env (step env s .FileNotFound) (.InclusionDirective (some f))).sourceFiles =
        s.sourceFiles ∧
      (step env (step env s .FileNotFound)
          (.InclusionDirective (some f))).skipInclude = false ∧
      (step env (step env (step env s .FileNotFound) (.InclusionDirective (some f)))
            (.InclusionDirective (some g))).sourceFiles =
        addSourceFile g s.sourceFiles :=
  ⟨rfl, rfl, rfl⟩

/-- C2 counterexample: a `FileNotFound` followed by the successful callback
for the recovered file 5 leaves the included-file set empty — not with the
one recovered entry the claim demands. -/
theorem c2_counterexample :
    (runPass sampleEnv failedInclusionEvents).sourceFiles = [] ∧
      (runPass sampleEnv failedInclusionEvents).sourceFiles ≠ [⟨5⟩] := by
  exact ⟨by decide, by decide⟩

end CollectMacros

namespace CollectMacros

/-- C9: when an occurrence passes the guards (macro info present, file
location, valid file-path id) but canonical-id generation fails, the symbol
table is left unchanged while the occurrence is still appended to the log:
only the canonical cross-reference is lost, never the occurrence record. -/
theorem c9_failed_generation_keeps_occurrence (env : Env) (tok : Token)
    (gid : MacroId) (ty : SymbolType) (s : CollectorState)
    (hfile : env.locIsFileID tok.loc = true)
    (hvalid : (env.filePathId tok.loc).isValid = true)
    (habsent : List.lookup (toSymbolIndex gid) s.symbolEntries = none)
    (hfail : env.generateUSR tok.name tok.loc = none) :
    (addMacroAsSymbol env tok (some gid) ty s).symbolEntries = s.symbolEntries ∧
      (addMacroAsSymbol env tok (some gid) ty s).sourceLocationEntries =
        s.sourceLocationEntries ++
          [⟨toSymbolIndex gid, env.filePathId tok.loc, env.lineColumn tok.loc, ty⟩] := by
  constructor
  · simp [addMacroAsSymbol, hfile, hvalid, habsent, hfail]
  · exact addMacroAsSymbol_log_append env tok gid ty s hfile hvalid

theorem c9_witness :
    (addMacroAsSymbol sampleEnv tokA1 (some 7) SymbolType.macroDefinition
        initialState).symbolEntries = initialState.symbolEntries ∧
      (addMacroAsSymbol sampleEnv tokA1 (some 7) SymbolType.macroDefinition
          initialState).sourceLocationEntries =
        initialState.sourceLocationEntries ++
          [⟨toSymbolIndex 7, sampleEnv.filePathId tokA1.loc,
            sampleEnv.lineColumn tokA1.loc, SymbolType.macroDefinition⟩] :=
  c9_failed_generation_keeps_occurrence sampleEnv tokA1 7 SymbolType.macroDefinition
    initialState rfl (by decide) rfl rfl

/-- C10: an occurrence reaches the symbol table and the occurrence log only
when the macro-info chain resolved, the token's location is a file location,
and the resolved file-path id is valid — if any guard fails both updates are
silently skipped — while the used-define candidate of conditional-test and
expansion events is recorded independently of these guards (the three
conditional-test handlers coincide with the expansion handler). -/
theorem c10_occurrence_gating (env : Env) (s : CollectorState) (tok : Token)
    (md : MacroDefinition) :
    (step env s (.Ifdef tok md) = step env s (.MacroExpands tok md) ∧
      step env s (.Ifndef tok md) = step env s (.MacroExpands tok md) ∧
      step env s (.Defined tok md) = step env s (.MacroExpands tok md)) ∧
    ((step env s (.MacroExpands tok md)).usedDefines =
        (addUsedDefine env tok md s).usedDefines ∧
      (step env s (.MacroExpands tok md)).maybeUsedDefines =
        (addUsedDefine env tok md s).maybeUsedDefines) ∧
    ((firstMacroInfo md.getLocalDirective = none ∨
        env.locIsFileID tok.loc = false ∨
        (env.filePathId tok.loc).isValid = false) →
      (step env s (.MacroExpands tok md)).symbolEntries = s.symbolEntries ∧
      (step env s (.MacroExpands tok md)).sourceLocationEntries =
        s.sourceLocationEntries) ∧
    (∀ gid : MacroId, firstMacroInfo md.getLocalDirective = some gid →
      env.locIsFileID tok.loc = true → (env.filePathId tok.loc).isValid = true →
      (step env s (.MacroExpands tok md)).sourceLocationEntries =
        s.sourceLocationEntries ++
          [⟨toSymbolIndex gid, env.filePathId tok.loc, env.lineColumn tok.loc,
            SymbolType.macroUsage⟩]) := by
  refine ⟨⟨rfl, rfl, rfl⟩, ⟨?_, ?_⟩, ?_, ?_⟩
  · exact addMacroAsSymbol_usedDefines env tok _ _ _
  · exact addMacroAsSymbol_maybeUsedDefines env tok _ _ _
  · intro hguard
    have key : addMacroAsSymbol env tok (firstMacroInfo md.getLocalDirective)
        SymbolType.macroUsage (addUsedDefine env tok md s) =
        addUsedDefine env tok md s := by
      rcases hguard with h | h | h
      · rw [h]
        rfl
      · exact addMacroAsSymbol_not_fileID _ _ _ _ _ h
      · exact addMacroAsSymbol_invalid_file _ _ _ _ _ h
    constructor
    · show (addMacroAsSymbol env tok (firstMacroInfo md.getLocalDirective)
          SymbolType.macroUsage (addUsedDefine env tok md s)).symbolEntries =
        s.symbolEntries
      rw [key, addUsedDefine_symbolEntries]
    · show (addMacroAsSymbol env tok (firstMacroInfo md.getLocalDirective)
          SymbolType.macroUsage (addUsedDefine env tok md s)).sourceLocationEntries =
        s.sourceLocationEntries
      rw [key, addUsedDefine_sourceLocationEntries]
  · intro gid hg hfile hvalid
    show (addMacroAsSymbol env tok (firstMacroInfo md.getLocalDirective)
        SymbolType.macroUsage (addUsedDefine env tok md s)).sourceLocationEntries = _
    rw [hg, addMacroAsSymbol_log_append env tok gid _ _ hfile hvalid,
      addUsedDefine_sourceLocationEntries]

theorem c10_witness :
    (step sampleEnv initialState (.MacroExpands tokA1 mdNoDirective)).symbolEntries =
        initialState.symbolEntries ∧
      (step sampleEnv initialState
          (.MacroExpands tokA1 mdNoDirective)).sourceLocationEntries =
        initialState.sourceLocationEntries :=
  (c10_occurrence_gating sampleEnv initialState tokA1 mdNoDirective).2.2.1 (Or.inl rfl)

end CollectMacros

namespace CollectMacros

/-- C3 (amended): while the entry for an identity is absent, every occurrence
passing the guards retries canonical-id generation — a failed first attempt
leaves the table without the entry only until some later occurrence's
generation succeeds, at which point the entry is inserted; once an entry
exists it is never regenerated or overwritten. -/
theorem c3_generation_retried_on_later_occurrences (env : Env) (tok : Token)
    (gid : MacroId) (ty : SymbolType) (s : CollectorState)
    (hfile : env.locIsFileID tok.loc = true)
    (hvalid : (env.filePathId tok.loc).isValid = true) :
    List.lookup (toSymbolIndex gid)
        (addMacroAsSymbol env tok (some gid) ty s).symbolEntries =
      match List.lookup (toSymbolIndex gid) s.symbolEntries with
      | some e => some e
      | none => (env.generateUSR tok.name tok.loc).map (fun usr => ⟨usr, tok.name⟩) :=
  addMacroAsSymbol_lookup env tok gid ty s hfile hvalid

theorem c3_witness :
    List.lookup (toSymbolIndex 7)
        (addMacroAsSymbol sampleEnv tokA2 (some 7) SymbolType.macroUsage
          initialState).symbolEntries = some ⟨"usr_A", "A"⟩ := by
  rw [c3_generation_retried_on_later_occurrences sampleEnv tokA2 7
    SymbolType.macroUsage initialState rfl (by decide)]
  decide

/-- C3 counterexample: generation for `A` fails at the defining occurrence
(location 1), so the table lacks the entry after the first event; the later
expansion at location 2 retries, succeeds, and inserts the entry — the table
does not permanently lack an entry for identity 7, contrary to the claim. -/
theorem c3_counterexample :
    List.lookup 7 (processEvents sampleEnv
        [.MacroDefined tokA1 (some dirA)]).symbolEntries = none ∧
      List.lookup 7 (runPass sampleEnv retryEvents).symbolEntries =
        some ⟨"usr_A", "A"⟩ := by
  exact ⟨by decide, by decide⟩

/-- C8: the symbol table never holds two rows with the same identity — after
any event stream (and still after finalization) its key list is
duplicate-free — and processing any further occurrence never overwrites an
existing row. -/
theorem c8_symbol_table_unique (env : Env) (events : List PPEvent) (e : PPEvent)
    (s : CollectorState) (gid : SymbolIndex) (v : SymbolEntry) :
    ((processEvents env events).symbolEntries.map Prod.fst).Nodup ∧
      ((runPass env events).symbolEntries.map Prod.fst).Nodup ∧
      (List.lookup gid s.symbolEntries = some v →
        List.lookup gid (step env s e).symbolEntries = some v) := by
  refine ⟨?_, ?_, ?_⟩
  · exact foldl_step_keys_nodup env events initialState (by simp [initialState])
  · rw [show (runPass env events).symbolEntries =
      (processEvents env events).symbolEntries from rfl]
    exact foldl_step_keys_nodup env events initialState (by simp [initialState])
  · exact step_lookup_mono env s e gid v

theorem c8_witness :
    List.lookup 7 (step sampleEnv preFilledState
        (.MacroDefined tokA2 (some dirA))).symbolEntries = some ⟨"u", "A"⟩ :=
  (c8_symbol_table_unique sampleEnv [] (.MacroDefined tokA2 (some dirA))
      preFilledState 7 ⟨"u", "A"⟩).2.2 (by decide)

/-- C4 (amended): the included-file set handed to the caller is deduplicated
— for every event sequence each file id appears at most once — but it is kept
in first-inclusion order rather than sorted order. -/
theorem c4_sourceFiles_nodup (env : Env) (events : List PPEvent) :
    (runPass env events).sourceFiles.Nodup := by
  rw [show (runPass env events).sourceFiles =
    (processEvents env events).sourceFiles from rfl]
  exact foldl_step_sourceFiles_nodup env events initialState (by simp [initialState])

/-- C4 counterexample: including file 2 and then file 1 leaves the
included-file set as `[2, 1]`, which is not in sorted order. -/
theorem c4_counterexample :
    (runPass sampleEnv unsortedInclusionEvents).sourceFiles = [⟨2⟩, ⟨1⟩] ∧
      ¬ List.Pairwise (fun a b : FilePathId => a.id ≤ b.id)
        (runPass sampleEnv unsortedInclusionEvents).sourceFiles := by
  exact ⟨by decide, by decide⟩

/-- C7: after finalization no entry whose name contains `EXPORT` remains in
the final used-define sequence, whichever set it originated in; and the
export filter never removes an entry whose name does not contain `EXPORT`. -/
theorem c7_export_filter (env : Env) (events : List PPEvent) (ud : UsedDefine)
    (s : CollectorState) :
    (ud ∈ (runPass env events).usedDefines →
      strContains ud.defineName "EXPORT" = false) ∧
    (ud ∈ s.usedDefines → strContains ud.defineName "EXPORT" = false →
      ud ∈ (filterOutExports s).usedDefines) := by
  constructor
  · intro h
    have h' : ud ∈ (mergeDefinesList (processEvents env events).usedDefines
        ((processEvents env events).maybeUsedDefines.filter
          (isNotHeaderGuard env))).filter
        (fun ud => !strContains ud.defineName "EXPORT") := h
    have h2 := (List.mem_filter.mp h').2
    simpa using h2
  · intro h1 h2
    have : ud ∈ s.usedDefines.filter (fun ud => !strContains ud.defineName "EXPORT") :=
      List.mem_filter.mpr ⟨h1, by simp [h2]⟩
    exact this

theorem c7_witness :
    strContains "MYLIB_FEATURE" "EXPORT" = false ∧
      (⟨"MYLIB_FEATURE", ⟨4⟩⟩ : UsedDefine) ∈ (filterOutExports exportState).usedDefines :=
  ⟨(c7_export_filter sampleEnv exportEvents ⟨"MYLIB_FEATURE", ⟨4⟩⟩ exportState).1
      (by decide),
    (c7_export_filter sampleEnv exportEvents ⟨"MYLIB_FEATURE", ⟨4⟩⟩ exportState).2
      (by decide) (by decide)⟩

/-- C1 (amended): for every event sequence the final used-define sequence is
sorted by name, but only non-strictly: each name appears at most twice, and
strict sortedness (no duplicate names) fails when one name was recorded both
in the confirmed and in the tentative set, because the in-place merge
performs no duplicate suppression. -/
theorem c1_final_usedDefines_sorted (env : Env) (events : List PPEvent) :
    (runPass env events).usedDefines.Pairwise udNameLE ∧
      ∀ n : String,
        (runPass env events).usedDefines.countP (fun ud => ud.defineName == n) ≤ 2 := by
  rcases processEvents_sorted env events with ⟨h1, h2⟩
  have h2f : ((processEvents env events).maybeUsedDefines.filter
      (isNotHeaderGuard env)).Pairwise udNameLT :=
    List.Pairwise.sublist (List.filter_sublist _) h2
  have hrun : (runPass env events).usedDefines =
      (mergeDefinesList (processEvents env events).usedDefines
          ((processEvents env events).maybeUsedDefines.filter
            (isNotHeaderGuard env))).filter
        (fun ud => !strContains ud.defineName "EXPORT") := rfl
  constructor
  · rw [hrun]
    exact List.Pairwise.sublist (List.filter_sublist _)
      (pairwise_udNameLE_mergeDefinesList h1 h2f)
  · intro n
    rw [hrun]
    have hsub : (List.filter (fun ud => !strContains ud.defineName "EXPORT")
        (mergeDefinesList (processEvents env events).usedDefines
          ((processEvents env events).maybeUsedDefines.filter
            (isNotHeaderGuard env)))).Sublist
        (mergeDefinesList (processEvents env events).usedDefines
          ((processEvents env events).maybeUsedDefines.filter
            (isNotHeaderGuard env))) := List.filter_sublist _
    have hle := List.Sublist.countP_le (fun ud => ud.defineName == n) hsub
    have hm := countP_mergeDefinesList (fun ud => ud.defineName == n)
      (processEvents env events).usedDefines
      ((processEvents env events).maybeUsedDefines.filter (isNotHeaderGuard env))
    have hc1 := countP_name_le_one n h1
    have hc2 := countP_name_le_one n h2f
    omega

/-- C1 counterexample: with `A` recorded once tentatively (via a `defined`
test that did not resolve) and once confirmed, the final sequence is
`[A, A]` — sorted, but with a duplicated name, refuting strict sortedness
with no duplicate names. -/
theorem c1_counterexample :
    (runPass sampleEnv dupNameEvents).usedDefines.map UsedDefine.defineName =
        ["A", "A"] ∧
      ¬ (runPass sampleEnv dupNameEvents).usedDefines.Pairwise udNameLT := by
  exact ⟨by decide, by decide⟩

end CollectMacros
